import Mathlib

/-!
Verification of the OMAP Pathfinding Processor core against its
natural-language specification.

The development shallowly embeds the C++ sources:
* `include/map/PathfindingUtils.hpp` — heuristics and row-major index helpers;
* `src/logic/PathfindingLogic.cpp` (`app::PathfindingLogic::processAndFindPath`)
  — the segment orchestrator: waypoint bounds checks, identical-point
  shortcut, segment concatenation, dummy-elevation setup, grid reuse;
* `src/gui/main_window.cpp` (`app::MainWindow`) — the grid-reuse decision
  and `parseObstacleCosts`.

Modelling conventions: C++ `int` is `ℤ`; `float`/`double` arithmetic is
idealized over `ℝ` (for the heuristics, whose only irrational ingredient
is `sqrtf`; the float literal `1.41421356f` in the `costs` table denotes
`√2`) or over `ℚ` (for the purely rational elevation bookkeeping); C++
`/` and `%` on `int` truncate toward zero and are embedded as `Int.tdiv`
and `Int.tmod`; `std::optional` / early-`return false` control flow is
embedded with `Option`.  Components of the repository that are not among
the provided sources (the pathfinder implementations and `Grid_V3`) are
modelled from the specification where a claim needs them; each such
definition carries a `Modelled from the spec:` doc comment.
-/

namespace OMAP

/-! ### PathfindingUtils (include/map/PathfindingUtils.hpp) -/

/-- Heuristic selector constants from `PathfindingUtils.hpp`. -/
def HEURISTIC_EUCLIDEAN : ℤ := 0

/-- Heuristic selector `HEURISTIC_DIAGONAL = 1`. -/
def HEURISTIC_DIAGONAL : ℤ := 1

/-- Heuristic selector `HEURISTIC_MANHATTAN = 2`. -/
def HEURISTIC_MANHATTAN : ℤ := 2

/-- Heuristic selector `HEURISTIC_MIN_COST = 3`. -/
def HEURISTIC_MIN_COST : ℤ := 3

/-- The `costs` table of base geometric step factors: entries `0..3` are
`1.0f`, entries `4..7` are the float literal `1.41421356f`, read as `√2`
in the real-valued idealization. -/
noncomputable def costs : Fin 8 → ℝ := fun i => if (i : ℕ) < 4 then 1 else Real.sqrt 2

/-- `internal::euclidean_distance`: casts the integer coordinate
differences to float and returns `sqrtf(dx*dx + dy*dy)`. -/
noncomputable def euclidean_distance (x1 y1 x2 y2 : ℤ) : ℝ :=
  Real.sqrt (((x1 - x2 : ℤ) : ℝ) * ((x1 - x2 : ℤ) : ℝ) +
    ((y1 - y2 : ℤ) : ℝ) * ((y1 - y2 : ℤ) : ℝ))

/-- `internal::diagonal_distance`:
`costs[0]*(|dx|+|dy|) + (costs[4] - 2*costs[0])*min(|dx|,|dy|)`. -/
noncomputable def diagonal_distance (x1 y1 x2 y2 : ℤ) : ℝ :=
  costs 0 * (|((x1 - x2 : ℤ) : ℝ)| + |((y1 - y2 : ℤ) : ℝ)|) +
    (costs 4 - 2 * costs 0) * min |((x1 - x2 : ℤ) : ℝ)| |((y1 - y2 : ℤ) : ℝ)|

/-- `internal::manhattan_distance`: `float(abs(x1-x2) + abs(y1-y2))`. -/
def manhattan_distance (x1 y1 x2 y2 : ℤ) : ℝ :=
  ((|x1 - x2| + |y1 - y2| : ℤ) : ℝ)

/-- `PathfindingUtils::calculate_heuristic`: dispatches on
`heuristic_type`; `HEURISTIC_MIN_COST` scales the diagonal distance by
`0.8f`; every other value (including the default case) yields the
Euclidean distance. -/
noncomputable def calculate_heuristic (x1 y1 x2 y2 : ℤ) (heuristic_type : ℤ) : ℝ :=
  if heuristic_type = HEURISTIC_DIAGONAL then diagonal_distance x1 y1 x2 y2
  else if heuristic_type = HEURISTIC_MANHATTAN then manhattan_distance x1 y1 x2 y2
  else if heuristic_type = HEURISTIC_MIN_COST then diagonal_distance x1 y1 x2 y2 * 0.8
  else euclidean_distance x1 y1 x2 y2

/-- `PathfindingUtils::toIndex`: row-major index `y * width + x`
(no bounds check in the source). -/
def toIndex (x y width : ℤ) : ℤ := y * width + x

/-- `PathfindingUtils::toCoords`: returns `(-1, -1)` for `width <= 0`,
otherwise `(index % width, index / width)` with C++ truncated division. -/
def toCoords (index width : ℤ) : ℤ × ℤ :=
  if width ≤ 0 then (-1, -1) else (index.tmod width, index.tdiv width)

/-- Spec-side formula (for the refinement comparison of claim C1 only):
the Euclidean heuristic as the spec states it, `√(Δx²+Δy²) · log_cell_m`. -/
noncomputable def spec_euclidean_heuristic (x1 y1 x2 y2 : ℤ) (log_cell_m : ℝ) : ℝ :=
  Real.sqrt (((x1 : ℝ) - x2) ^ 2 + ((y1 : ℝ) - y2) ^ 2) * log_cell_m

/-- Spec-side formula (for the refinement comparison of claim C1 only):
the octile heuristic as the spec states it,
`log_cell_m · ((|Δx|+|Δy|) + (√2 − 2)·min(|Δx|,|Δy|))`. -/
noncomputable def spec_diagonal_heuristic (x1 y1 x2 y2 : ℤ) (log_cell_m : ℝ) : ℝ :=
  log_cell_m * ((|(x1 : ℝ) - x2| + |(y1 : ℝ) - y2|) +
    (Real.sqrt 2 - 2) * min |(x1 : ℝ) - x2| |(y1 : ℝ) - y2|)

/-! ### Claims C1, C9, C10 -/

/-- Entry `0` of the `costs` table is `1.0f`. -/
theorem costs_zero : costs 0 = 1 := by
  have h : ((0 : Fin 8) : ℕ) = 0 := rfl
  simp [costs, h]

/-- Entry `4` of the `costs` table is the diagonal step factor `√2`. -/
theorem costs_four : costs 4 = Real.sqrt 2 := by
  have h : ((4 : Fin 8) : ℕ) = 4 := rfl
  simp [costs, h]

/-- C1 (counterexample): the claim that `calculate_heuristic` returns the
stated distance multiplied by `log_cell_m` is false — the function does
not receive `log_cell_m` at all.  At cells `(0,0)`,`(1,0)` with
`log_cell_m = 2`, the code returns `1` while the claimed value is `2`. -/
theorem calculate_heuristic_log_factor_cex :
    calculate_heuristic 0 0 1 0 HEURISTIC_EUCLIDEAN ≠
      spec_euclidean_heuristic 0 0 1 0 2 := by
  have h1 : calculate_heuristic 0 0 1 0 HEURISTIC_EUCLIDEAN = 1 := by
    simp [calculate_heuristic, HEURISTIC_EUCLIDEAN, HEURISTIC_DIAGONAL,
      HEURISTIC_MANHATTAN, HEURISTIC_MIN_COST, euclidean_distance]
  have h2 : spec_euclidean_heuristic 0 0 1 0 2 = 2 := by
    simp [spec_euclidean_heuristic]
  rw [h1, h2]
  norm_num

/-- C1 (amended): `calculate_heuristic` returns the stated distances in
grid-cell units, with no `log_cell_m` factor: the Euclidean selector
yields `√(Δx²+Δy²)` and the Diagonal selector yields
`(|Δx|+|Δy|) + (√2 − 2)·min(|Δx|,|Δy|)`. -/
theorem calculate_heuristic_grid_units (x1 y1 x2 y2 : ℤ) :
    calculate_heuristic x1 y1 x2 y2 HEURISTIC_EUCLIDEAN =
      Real.sqrt (((x1 : ℝ) - x2) ^ 2 + ((y1 : ℝ) - y2) ^ 2) ∧
    calculate_heuristic x1 y1 x2 y2 HEURISTIC_DIAGONAL =
      (|(x1 : ℝ) - x2| + |(y1 : ℝ) - y2|) +
        (Real.sqrt 2 - 2) * min |(x1 : ℝ) - x2| |(y1 : ℝ) - y2| := by
  constructor
  · simp only [calculate_heuristic, HEURISTIC_EUCLIDEAN, HEURISTIC_DIAGONAL,
      HEURISTIC_MANHATTAN, HEURISTIC_MIN_COST, euclidean_distance]
    norm_num
    congr 1
    ring
  · simp only [calculate_heuristic, HEURISTIC_DIAGONAL, diagonal_distance,
      costs_zero, costs_four]
    norm_num

/-- C9: for `width > 0`, `0 ≤ x < width` and `0 ≤ y`, converting a cell
to its row-major index and back is the identity:
`toCoords (toIndex x y width) width = (x, y)`. -/
theorem toIndex_toCoords_roundtrip (x y width : ℤ)
    (hw : 0 < width) (hx0 : 0 ≤ x) (hxw : x < width) (hy : 0 ≤ y) :
    toCoords (toIndex x y width) width = (x, y) := by
  have hnz : width ≠ 0 := ne_of_gt hw
  have hidx : (0 : ℤ) ≤ y * width + x :=
    add_nonneg (mul_nonneg hy (le_of_lt hw)) hx0
  have htd : (y * width + x).tdiv width = y := by
    rw [Int.tdiv_eq_ediv hidx (le_of_lt hw), add_comm, Int.add_mul_ediv_right x y hnz,
      Int.ediv_eq_zero_of_lt hx0 hxw, zero_add]
  have htm : (y * width + x).tmod width = x := by
    rw [Int.tmod_eq_emod hidx (le_of_lt hw), add_comm, Int.add_mul_emod_self,
      Int.emod_eq_of_lt hx0 hxw]
  simp [toCoords, toIndex, not_le.mpr hw, htd, htm]

/-- C9 (witness): the round trip at `x = 2`, `y = 3`, `width = 5`. -/
theorem toIndex_toCoords_roundtrip_witness :
    toCoords (toIndex 2 3 5) 5 = (2, 3) :=
  toIndex_toCoords_roundtrip 2 3 5 (by norm_num) (by norm_num) (by norm_num) (by norm_num)

/-- C10: every `heuristic_type` outside `{HEURISTIC_DIAGONAL,
HEURISTIC_MANHATTAN, HEURISTIC_MIN_COST}` — in particular the sentinel
`-1` the GUI passes when the selected algorithm uses no heuristic —
falls through to the default case and yields the Euclidean distance. -/
theorem calculate_heuristic_default_euclidean (x1 y1 x2 y2 t : ℤ)
    (h1 : t ≠ HEURISTIC_DIAGONAL) (h2 : t ≠ HEURISTIC_MANHATTAN)
    (h3 : t ≠ HEURISTIC_MIN_COST) :
    calculate_heuristic x1 y1 x2 y2 t = euclidean_distance x1 y1 x2 y2 := by
  simp [calculate_heuristic, h1, h2, h3]

/-- C10 (witness): the GUI sentinel `-1` yields the Euclidean distance. -/
theorem calculate_heuristic_default_euclidean_witness :
    calculate_heuristic 0 0 3 4 (-1) = euclidean_distance 0 0 3 4 :=
  calculate_heuristic_default_euclidean 0 0 3 4 (-1)
    (by decide) (by decide) (by decide)

/-! ### Segment orchestrator (`app::PathfindingLogic::processAndFindPath`) -/

/-- `GridPoint` from `PathfindingUtils.hpp`: an integer cell coordinate. -/
structure GridPoint where
  x : ℤ
  y : ℤ
deriving DecidableEq, Repr

/-- Modelled from the spec: `mapgeo::Grid_V3` (`MapProcessor.hpp` is not
among the provided sources).  The orchestrator only consumes its width,
height and `inBounds`; the spec's `Cell` base-cost `IMPASSABLE` sentinel
is abstracted as a per-cell flag. -/
structure Grid where
  width : ℤ
  height : ℤ
  impassable : ℤ → ℤ → Bool

/-- Modelled from the spec: `in_bounds(x,y) ⇔ 0 ≤ x < W ∧ 0 ≤ y < H`
(§3 Data Model; `Grid_V3::inBounds` is not among the provided sources). -/
def inBounds (g : Grid) (x y : ℤ) : Prop :=
  0 ≤ x ∧ x < g.width ∧ 0 ≤ y ∧ y < g.height

instance (g : Grid) (x y : ℤ) : Decidable (inBounds g x y) :=
  inferInstanceAs (Decidable (0 ≤ x ∧ x < g.width ∧ 0 ≤ y ∧ y < g.height))

/-- A waypoint sits on an impassable cell. -/
def isImpassable (g : Grid) (p : GridPoint) : Prop :=
  g.impassable p.x p.y = true

/-- The identical-point branch of the waypoint loop: push the cell index
unless the running result already ends with it
(`if (full_path_indices.empty() || full_path_indices.back() != pointIndex)
push_back`). -/
def pushPoint (full : List ℤ) (idx : ℤ) : List ℤ :=
  if full = [] ∨ full.getLast? ≠ some idx then full ++ [idx] else full

/-- Segment concatenation from the waypoint loop: if the running result
is empty take the segment; else drop the segment's first index when it
duplicates the running result's last index (both the `size() > 1` and the
`size() == 1` branches of the source), otherwise append the whole
segment. -/
def concatSegment (full seg : List ℤ) : List ℤ :=
  if full = [] then seg
  else if seg = [] then full
  else if 1 < seg.length ∧ full.getLast? = seg.head? then full ++ seg.tail
  else if seg.length = 1 ∧ full.getLast? = seg.head? then full
  else full ++ seg

/-- State of the waypoint loop: the accumulated `full_path_indices` and
the `path_found_for_all_segments` flag. -/
structure SegState where
  fullPath : List ℤ
  ok : Bool
deriving DecidableEq, Repr

/-- The waypoint loop of `processAndFindPath`, iterating over consecutive
waypoint pairs: bounds check (break with failure), identical-point
shortcut, pathfinder call (break with failure on an empty segment path),
segment concatenation. -/
def segLoop (g : Grid) (fp : GridPoint → GridPoint → List ℤ) :
    List GridPoint → List ℤ → SegState
  | w0 :: w1 :: rest, acc =>
    if ¬ inBounds g w0.x w0.y ∨ ¬ inBounds g w1.x w1.y then ⟨acc, false⟩
    else if w0 = w1 then
      segLoop g fp (w1 :: rest) (pushPoint acc (toIndex w0.x w0.y g.width))
    else if fp w0 w1 = [] then ⟨acc, false⟩
    else segLoop g fp (w1 :: rest) (concatSegment acc (fp w0 w1))
  | _, acc => ⟨acc, true⟩

/-- The `success` flag and `fullPathIndices` of a `BackendResult`. -/
structure RunResult where
  success : Bool
  fullPathIndices : List ℤ
deriving DecidableEq, Repr

/-- Result finalization of `processAndFindPath`: on success keep the
accumulated path (possibly empty); on failure clear it
(`result.fullPathIndices.clear()`). -/
def finalizeRun (st : SegState) : RunResult :=
  if st.ok then ⟨true, st.fullPath⟩ else ⟨false, []⟩

/-- The orchestrator run: the waypoint loop from an empty accumulator,
followed by finalization.  `fp` is the selected pathfinder. -/
def processRun (g : Grid) (fp : GridPoint → GridPoint → List ℤ)
    (waypoints : List GridPoint) : RunResult :=
  finalizeRun (segLoop g fp waypoints [])

/-- Consecutive waypoint pairs `(w_i, w_{i+1})`, the segments the loop
iterates over. -/
def consecutivePairs : List GridPoint → List (GridPoint × GridPoint)
  | a :: b :: rest => (a, b) :: consecutivePairs (b :: rest)
  | _ => []

/-- Modelled from the spec: the pathfinder contract for invalid endpoints
(§4.6 — "If either endpoint is out of bounds or `IMPASSABLE`, return
`NotFound`"; the pathfinder implementations are not among the provided
sources).  Only the impassable half is needed: an empty list is the
source's encoding of `NotFound`. -/
def SpecFindPathImpassable (g : Grid) (fp : GridPoint → GridPoint → List ℤ) : Prop :=
  ∀ a b : GridPoint, isImpassable g a ∨ isImpassable g b → fp a b = []

/-! ### Claims C2, C4, C5, C6 -/

/-- Unfolding of one iteration of the waypoint loop. -/
theorem segLoop_cons_cons (g : Grid) (fp : GridPoint → GridPoint → List ℤ)
    (w0 w1 : GridPoint) (rest : List GridPoint) (acc : List ℤ) :
    segLoop g fp (w0 :: w1 :: rest) acc =
      if ¬ inBounds g w0.x w0.y ∨ ¬ inBounds g w1.x w1.y then ⟨acc, false⟩
      else if w0 = w1 then
        segLoop g fp (w1 :: rest) (pushPoint acc (toIndex w0.x w0.y g.width))
      else if fp w0 w1 = [] then ⟨acc, false⟩
      else segLoop g fp (w1 :: rest) (concatSegment acc (fp w0 w1)) := rfl

/-- The waypoint loop ends with `ok = false` whenever some consecutive
pair has distinct points and a pathfinder result that is empty (the loop
either reaches that pair and breaks, or breaks even earlier). -/
theorem segLoop_ok_false_of_pair (g : Grid) (fp : GridPoint → GridPoint → List ℤ) :
    ∀ (ws : List GridPoint) (acc : List ℤ),
      (∃ p ∈ consecutivePairs ws, p.1 ≠ p.2 ∧ fp p.1 p.2 = []) →
      (segLoop g fp ws acc).ok = false := by
  intro ws
  induction ws with
  | nil => intro acc h; simp [consecutivePairs] at h
  | cons w0 tl ih =>
    intro acc h
    match tl, ih with
    | [], _ => simp [consecutivePairs] at h
    | w1 :: rest, ih =>
      rcases h with ⟨p, hp, hne, hem⟩
      simp only [consecutivePairs, List.mem_cons] at hp
      rw [segLoop_cons_cons]
      by_cases hb : ¬ inBounds g w0.x w0.y ∨ ¬ inBounds g w1.x w1.y
      · rw [if_pos hb]
      · rw [if_neg hb]
        by_cases heq : w0 = w1
        · rw [if_pos heq]
          have hptl : p ∈ consecutivePairs (w1 :: rest) := by
            rcases hp with hp | hp
            · subst hp; simp only [ne_eq] at hne; exact absurd heq fun h => hne (by rw [h])
            · exact hp
          exact ih _ ⟨p, hptl, hne, hem⟩
        · rw [if_neg heq]
          by_cases hseg : fp w0 w1 = []
          · rw [if_pos hseg]
          · rw [if_neg hseg]
            have hptl : p ∈ consecutivePairs (w1 :: rest) := by
              rcases hp with hp | hp
              · subst hp; exact absurd hem hseg
              · exact hp
            exact ih _ ⟨p, hptl, hne, hem⟩

/-- The waypoint loop ends with `ok = false` whenever some waypoint of a
list of at least two is out of bounds (the bounds check precedes every
other step of each iteration). -/
theorem segLoop_ok_false_of_oob (g : Grid) (fp : GridPoint → GridPoint → List ℤ) :
    ∀ (ws : List GridPoint) (acc : List ℤ) (w : GridPoint),
      w ∈ ws → ¬ inBounds g w.x w.y → 2 ≤ ws.length →
      (segLoop g fp ws acc).ok = false := by
  intro ws
  induction ws with
  | nil => intro acc w hw _ _; simp at hw
  | cons w0 tl ih =>
    intro acc w hw hnb hlen
    match tl, ih with
    | [], _ => simp at hlen
    | w1 :: rest, ih =>
      rw [segLoop_cons_cons]
      by_cases hb : ¬ inBounds g w0.x w0.y ∨ ¬ inBounds g w1.x w1.y
      · rw [if_pos hb]
      · rw [if_neg hb]
        push_neg at hb
        have hw0 : w ≠ w0 := fun h => hnb (h ▸ hb.1)
        have hw1 : w ≠ w1 := fun h => hnb (h ▸ hb.2)
        have hwtl : w ∈ w1 :: rest := by
          rcases List.mem_cons.mp hw with h | h
          · exact absurd h hw0
          · exact h
        have hrest : rest ≠ [] := by
          intro h
          subst h
          rcases List.mem_cons.mp hwtl with h | h
          · exact hw1 h
          · simp at h
        have hlen2 : 2 ≤ (w1 :: rest).length := by
          cases rest with
          | nil => exact absurd rfl hrest
          | cons a tla => simp
        by_cases heq : w0 = w1
        · rw [if_pos heq]
          exact ih _ w hwtl hnb hlen2
        · rw [if_neg heq]
          by_cases hseg : fp w0 w1 = []
          · rw [if_pos hseg]
          · rw [if_neg hseg]
            exact ih _ w hwtl hnb hlen2

/-- C2 (counterexample): a run whose single repeated waypoint lies on an
in-bounds IMPASSABLE cell reports no error and returns a non-empty path
containing that cell — the identical-point shortcut skips both the
pathfinder and any impassability check, refuting the claim. -/
theorem impassable_waypoint_silent_cex :
    (processRun ⟨1, 1, fun _ _ => true⟩ (fun _ _ => []) [⟨0, 0⟩, ⟨0, 0⟩]).success = true ∧
    (processRun ⟨1, 1, fun _ _ => true⟩ (fun _ _ => []) [⟨0, 0⟩, ⟨0, 0⟩]).fullPathIndices = [0] ∧
    isImpassable ⟨1, 1, fun _ _ => true⟩ ⟨0, 0⟩ ∧
    inBounds ⟨1, 1, fun _ _ => true⟩ 0 0 ∧
    SpecFindPathImpassable ⟨1, 1, fun _ _ => true⟩ (fun _ _ => []) := by
  refine ⟨by decide, by decide, rfl, by decide, fun a b _ => rfl⟩

/-- C2 (amended): with a pathfinder satisfying the spec's impassable
contract, a run over at least two waypoints fails (success `false`, empty
path) whenever some waypoint is out of bounds, or some waypoint on an
IMPASSABLE cell is an endpoint of a segment whose two waypoints differ.
(An impassable in-bounds waypoint all of whose segments have identical
endpoints is not detected; see the counterexample.) -/
theorem invalid_waypoint_run_fails (g : Grid) (fp : GridPoint → GridPoint → List ℤ)
    (ws : List GridPoint)
    (hfp : SpecFindPathImpassable g fp) (hlen : 2 ≤ ws.length)
    (h : (∃ w ∈ ws, ¬ inBounds g w.x w.y) ∨
      (∃ p ∈ consecutivePairs ws, p.1 ≠ p.2 ∧ (isImpassable g p.1 ∨ isImpassable g p.2))) :
    (processRun g fp ws).success = false ∧ (processRun g fp ws).fullPathIndices = [] := by
  have hok : (segLoop g fp ws []).ok = false := by
    rcases h with ⟨w, hw, hnb⟩ | ⟨p, hp, hne, him⟩
    · exact segLoop_ok_false_of_oob g fp ws [] w hw hnb hlen
    · exact segLoop_ok_false_of_pair g fp ws [] ⟨p, hp, hne, hfp p.1 p.2 him⟩
  constructor
  · simp [processRun, finalizeRun, hok]
  · simp [processRun, finalizeRun, hok]

/-- C2 (witness): a 2×1 grid whose cell `(1,0)` is impassable; the run
from `(0,0)` to `(1,0)` fails with an empty path. -/
theorem invalid_waypoint_run_fails_witness :
    (processRun ⟨2, 1, fun x _ => x == 1⟩ (fun _ _ => []) [⟨0, 0⟩, ⟨1, 0⟩]).success = false ∧
    (processRun ⟨2, 1, fun x _ => x == 1⟩ (fun _ _ => []) [⟨0, 0⟩, ⟨1, 0⟩]).fullPathIndices = [] :=
  invalid_waypoint_run_fails _ _ _ (fun _ _ _ => rfl) (by decide)
    (Or.inr ⟨(⟨0, 0⟩, ⟨1, 0⟩), by decide, by decide, Or.inr rfl⟩)

/-- C4: if some searched segment (a consecutive pair with distinct
waypoints) yields an empty path, the run returns `success = false` with
an empty index list, and the loop stops there: the outcome is
independent of the remaining waypoints. -/
theorem segment_not_found_aborts (g : Grid) (fp : GridPoint → GridPoint → List ℤ)
    (ws : List GridPoint)
    (h : ∃ p ∈ consecutivePairs ws, p.1 ≠ p.2 ∧ fp p.1 p.2 = []) :
    (processRun g fp ws).success = false ∧ (processRun g fp ws).fullPathIndices = [] ∧
    ∀ (a b : GridPoint) (rest rest' : List GridPoint) (acc : List ℤ),
      a ≠ b → fp a b = [] →
      segLoop g fp (a :: b :: rest) acc = segLoop g fp (a :: b :: rest') acc := by
  have hok := segLoop_ok_false_of_pair g fp ws [] h
  refine ⟨by simp [processRun, finalizeRun, hok], by simp [processRun, finalizeRun, hok], ?_⟩
  intro a b rest rest' acc hne hem
  by_cases hb : ¬ inBounds g a.x a.y ∨ ¬ inBounds g b.x b.y
  · rw [segLoop_cons_cons, if_pos hb, segLoop_cons_cons, if_pos hb]
  · rw [segLoop_cons_cons, if_neg hb, if_neg hne, if_pos hem,
      segLoop_cons_cons, if_neg hb, if_neg hne, if_pos hem]

/-- C4 (witness): a run whose only segment is unreachable fails with an
empty path. -/
theorem segment_not_found_aborts_witness :
    (processRun ⟨2, 1, fun _ _ => false⟩ (fun _ _ => []) [⟨0, 0⟩, ⟨1, 0⟩]).success = false ∧
    (processRun ⟨2, 1, fun _ _ => false⟩ (fun _ _ => []) [⟨0, 0⟩, ⟨1, 0⟩]).fullPathIndices = [] :=
  ⟨(segment_not_found_aborts _ _ _ ⟨(⟨0, 0⟩, ⟨1, 0⟩), by decide, by decide, rfl⟩).1,
   (segment_not_found_aborts _ _ _ ⟨(⟨0, 0⟩, ⟨1, 0⟩), by decide, by decide, rfl⟩).2.1⟩

/-- C5: concatenating a non-empty segment onto a non-empty running
result drops exactly the one duplicated index when the segment's first
index equals the running result's last index, and otherwise appends the
entire segment; nothing else is dropped or reordered. -/
theorem concat_join_policy (full seg : List ℤ) (h1 : full ≠ []) (h2 : seg ≠ []) :
    concatSegment full seg =
      if full.getLast? = seg.head? then full ++ seg.tail else full ++ seg := by
  rcases seg with _ | ⟨a, s⟩
  · exact absurd rfl h2
  rcases s with _ | ⟨b, s'⟩
  · by_cases hm : full.getLast? = some a
    · simp [concatSegment, h1, hm]
    · simp [concatSegment, h1, hm]
  · by_cases hm : full.getLast? = some a
    · simp [concatSegment, h1, hm]
    · simp [concatSegment, h1, hm]

/-- C5 (witness): joining `[1,2]` with `[2,3]` drops the duplicated `2`;
joining `[1,2]` with `[5,6]` appends the whole segment. -/
theorem concat_join_policy_witness :
    concatSegment [1, 2] [2, 3] = [1, 2, 3] ∧
    concatSegment [1, 2] [5, 6] = [1, 2, 5, 6] := by
  constructor
  · rw [concat_join_policy [1, 2] [2, 3] (by decide) (by decide)]; decide
  · rw [concat_join_policy [1, 2] [5, 6] (by decide) (by decide)]; decide

/-- C6: a segment with identical in-bounds endpoints contributes exactly
the single index `toIndex start` to the running result — the loop
continues with the index pushed unless it already terminates the running
result, and the updated result is never empty and always ends with that
index. -/
theorem identical_segment_single_index (g : Grid) (fp : GridPoint → GridPoint → List ℤ)
    (w : GridPoint) (rest : List GridPoint) (acc : List ℤ)
    (hb : inBounds g w.x w.y) :
    segLoop g fp (w :: w :: rest) acc =
      segLoop g fp (w :: rest) (pushPoint acc (toIndex w.x w.y g.width)) ∧
    pushPoint acc (toIndex w.x w.y g.width) ≠ [] ∧
    (pushPoint acc (toIndex w.x w.y g.width)).getLast? = some (toIndex w.x w.y g.width) := by
  have hb' : ¬ (¬ inBounds g w.x w.y ∨ ¬ inBounds g w.x w.y) := by
    push_neg; exact ⟨hb, hb⟩
  refine ⟨by rw [segLoop_cons_cons, if_neg hb', if_pos rfl], ?_, ?_⟩
  · unfold pushPoint
    split
    · simp
    · rename_i h
      push_neg at h
      exact h.1
  · unfold pushPoint
    split
    · exact List.getLast?_concat acc
    · rename_i h
      push_neg at h
      exact h.2

/-- C6 (witness): the identical-segment step at a concrete 1×1 grid. -/
theorem identical_segment_single_index_witness :
    segLoop ⟨1, 1, fun _ _ => false⟩ (fun _ _ => []) [⟨0, 0⟩, ⟨0, 0⟩] [] =
      segLoop ⟨1, 1, fun _ _ => false⟩ (fun _ _ => []) [⟨0, 0⟩]
        (pushPoint [] (toIndex 0 0 1)) ∧
    pushPoint [] (toIndex 0 0 1) ≠ [] ∧
    (pushPoint [] (toIndex 0 0 1)).getLast? = some (toIndex 0 0 1) :=
  identical_segment_single_index _ _ _ _ _ (by decide)

/-! ### Grid reuse decision (`MainWindow::onCalculatePathClicked`,
steps 3, and `processAndFindPath` step 1) -/

/-- The `MainWindow::Impl` fields consulted by the reuse check:
presence of `lastProcessedGrid` / `lastNormalizationInfo`, and the
previous run's map path and grid dimensions. -/
structure GuiReuseState where
  hasLastGrid : Bool
  hasLastNorm : Bool
  currentMapFilePath : String
  lastGridWidth : ℤ
  lastGridHeight : ℤ

/-- The `BackendInputParams` fields relevant to the reuse decision. -/
structure CalcParams where
  mapFilePath : String
  desiredGridWidth : ℤ
  desiredGridHeight : ℤ
  obstacleCosts : List (String × ℚ)

/-- The GUI reuse check (`onCalculatePathClicked`, step 3): request reuse
iff a previous grid exists and the map path and both grid dimensions
match the previous run.  The obstacle costs are not consulted (the
source comments "More complex: Could also check if obstacle costs
affecting grid gen changed"). -/
def decideGridReuse (st : GuiReuseState) (p : CalcParams) : Bool :=
  st.hasLastGrid && (st.currentMapFilePath == p.mapFilePath) &&
    (st.lastGridWidth == p.desiredGridWidth) && (st.lastGridHeight == p.desiredGridHeight)

/-- The backend side (`processAndFindPath`): the existing grid is reused
iff `reuseGridIfPossible` is set and both `existingGrid` and
`existingNormInfo` are present. -/
def logicReusesGrid (reuseFlag hasExistingGrid hasExistingNorm : Bool) : Bool :=
  reuseFlag && hasExistingGrid && hasExistingNorm

/-- End-to-end reuse: the GUI sets `existingGrid`/`existingNormInfo` from
its stored values only when it decides to request reuse, then the backend
applies its own presence check. -/
def gridReused (st : GuiReuseState) (p : CalcParams) : Bool :=
  logicReusesGrid (decideGridReuse st p)
    (decideGridReuse st p && st.hasLastGrid) (decideGridReuse st p && st.hasLastNorm)

/-! ### Claim C3 -/

/-- C3 (counterexample): with a previous grid present and matching map
path and dimensions, the grid is reused even though the obstacle costs
changed between the runs (previous run `[]`, new run `[("201", -1)]`),
refuting "reused only when ... the obstacle costs are all unchanged" and
"if any of these differ, the grid is regenerated". -/
theorem grid_reuse_ignores_costs_cex :
    gridReused ⟨true, true, "map.omap", 100, 100⟩
        ⟨"map.omap", 100, 100, [("201", -1)]⟩ = true ∧
    ([] : List (String × ℚ)) ≠ [("201", (-1 : ℚ))] := by
  constructor
  · rfl
  · simp

/-- C3 (amended): a previously computed grid is reused iff a previous
grid and normalization record exist and the map path, grid width and
grid height are unchanged; the obstacle costs are not compared, so the
reuse decision is invariant under changing them. -/
theorem grid_reuse_condition (st : GuiReuseState) (p : CalcParams) :
    (gridReused st p = true ↔
      st.hasLastGrid = true ∧ st.hasLastNorm = true ∧
      st.currentMapFilePath = p.mapFilePath ∧
      st.lastGridWidth = p.desiredGridWidth ∧
      st.lastGridHeight = p.desiredGridHeight) ∧
    ∀ c : List (String × ℚ),
      gridReused st { p with obstacleCosts := c } = gridReused st p := by
  constructor
  · simp only [gridReused, logicReusesGrid, decideGridReuse, Bool.and_eq_true,
      beq_iff_eq]
    tauto
  · intro c
    rfl

/-! ### Elevation preparation (`processAndFindPath`, step 3) -/

/-- The final elevation parameters handed to the pathfinders: the value
raster, its dimensions, cell resolution, projected origin and the offsets
from the logical grid. -/
structure ElevationField where
  values : List ℚ
  width : ℕ
  height : ℕ
  resolution : ℚ
  originX : ℚ
  originY : ℚ
  offsetX : ℚ
  offsetY : ℚ
deriving DecidableEq, Repr

/-- The logical-resolution fallback: `if (log_cell_resolution_meters <=
1e-6f) log_cell_resolution_meters = 1.0f`. -/
def computeLogCellRes (raw : ℚ) : ℚ :=
  if raw ≤ 1 / 1000000 then 1 else raw

/-- The dummy-elevation branch (`if (!useRealElevation) { ... }`): a
uniform `100.0f` raster of the requested grid dimensions, resolution
`log_cell_resolution_meters` guarded against near-zero, zero origin and
zero offsets. -/
def dummyElevationField (desiredGridWidth desiredGridHeight : ℕ)
    (log_cell_m : ℚ) : ElevationField :=
  { values := List.replicate (desiredGridWidth * desiredGridHeight) 100
    width := desiredGridWidth
    height := desiredGridHeight
    resolution := if 1 / 1000000 < log_cell_m then log_cell_m else 1
    originX := 0
    originY := 0
    offsetX := 0
    offsetY := 0 }

/-- The `useRealElevation` flag exactly as the source computes it:
initialized `true` (line `bool useRealElevation = true;` — despite its
comment "Assume dummy unless successfully fetched"), set `true` again on
a successful fetch, never reset on a failed or skipped fetch, and set
`false` only when the anchor lat/lon conversion fails. -/
def useRealElevationFinal (canFetch fetchOk anchorOk : Bool) : Bool :=
  let afterInit := true
  let afterFetch := if canFetch then (if fetchOk then true else afterInit) else afterInit
  if afterFetch then (if anchorOk then afterFetch else false) else afterFetch

/-- Modelled from the spec: real elevation is used only when a fetch was
attempted and succeeded and the anchor conversion succeeded — the intent
documented by the source's own comments and §6 of the spec ("When no
elevation is supplied, the core substitutes a uniform 100.0 m field"). -/
def specUseRealElevation (canFetch fetchOk anchorOk : Bool) : Bool :=
  canFetch && fetchOk && anchorOk

/-! ### Claim C7 -/

/-- C7 (code bug): when the elevation fetch fails (or is skipped) but the
anchor conversion succeeds, the source keeps `useRealElevation = true`
because the flag is initialized `true` and never reset, so the dummy
100.0 field is NOT substituted, contradicting the spec and the source's
own comments.  The last conjunct confirms that the dummy branch itself,
when taken, does produce the claimed uniform field: `W·H` values of
`100.0`, dimensions `W × H`, cell size `log_cell_m` (the guard is
vacuous because the resolution was already fallback-corrected), zero
origin and offsets. -/
theorem useRealElevation_init_bug :
    useRealElevationFinal true false true = true ∧
    useRealElevationFinal false false true = true ∧
    specUseRealElevation true false true = false ∧
    ∀ (w h : ℕ) (raw : ℚ),
      dummyElevationField w h (computeLogCellRes raw) =
        ⟨List.replicate (w * h) 100, w, h, computeLogCellRes raw, 0, 0, 0, 0⟩ := by
  refine ⟨rfl, rfl, rfl, ?_⟩
  intro w h raw
  by_cases hr : raw ≤ 1 / 1000000
  · simp only [dummyElevationField, computeLogCellRes, if_pos hr]
    norm_num
  · simp only [dummyElevationField, computeLogCellRes, if_neg hr,
      if_pos (not_le.mp hr)]

/-! ### Obstacle-cost parsing (`MainWindow::parseObstacleCosts`) -/

/-- The whitespace set of the per-line trim (`" \t\n\r"`). -/
def lineTrimSet : List Char := [' ', '\t', '\n', '\r']

/-- The whitespace set of the code/value trims (`" \t"`). -/
def cvTrimSet : List Char := [' ', '\t']

/-- Trim: erase the longest prefix and suffix drawn from `ws`
(`erase(0, find_first_not_of)` / `erase(find_last_not_of + 1)`). -/
def trim (ws : List Char) (s : List Char) : List Char :=
  ((s.dropWhile fun c => ws.contains c).reverse.dropWhile fun c => ws.contains c).reverse

/-- Split at the first `':'` (`line.find(':')` + the two `substr`s);
`none` when the line has no colon. -/
def splitAtColon : List Char → Option (List Char × List Char)
  | [] => none
  | c :: rest =>
    if c = ':' then some ([], rest)
    else (splitAtColon rest).map fun p => (c :: p.1, p.2)

/-- `MainWindow::parseObstacleCosts` over the list of input lines,
parameterized by the float parser `stof` (C++ `std::stof`, which may
accept a strict prefix; `none` models its `invalid_argument` /
`out_of_range` exceptions).  `none` models `return false`; on success
the entries are returned in line order (the C++ accumulates them into a
map, where a duplicate code keeps the last value). -/
def parseObstacleCosts (stof : List Char → Option ℚ) :
    List (List Char) → Option (List (List Char × ℚ))
  | [] => some []
  | line :: rest =>
    if trim lineTrimSet line = [] ∨ (trim lineTrimSet line).head? = some '#' then
      parseObstacleCosts stof rest
    else
      match splitAtColon (trim lineTrimSet line) with
      | none => none
      | some cv =>
        if trim cvTrimSet cv.1 = [] then none
        else
          match stof (trim cvTrimSet cv.2) with
          | none => none
          | some q => (parseObstacleCosts stof rest).map fun es => (trim cvTrimSet cv.1, q) :: es

/-- A line the parser ignores, in the claim's words: blank after
trimming, or first non-whitespace character `'#'`. -/
def IgnoredLine (line : List Char) : Prop :=
  trim lineTrimSet line = [] ∨ (trim lineTrimSet line).head? = some '#'

instance (line : List Char) : Decidable (IgnoredLine line) :=
  inferInstanceAs (Decidable (trim lineTrimSet line = [] ∨
    (trim lineTrimSet line).head? = some '#'))

/-- A bad line, in the claim's words: not ignored, and it lacks a colon,
or its symbol code is empty after trimming, or its value does not parse
as a float. -/
def BadObstacleLine (stof : List Char → Option ℚ) (line : List Char) : Prop :=
  ¬ IgnoredLine line ∧
    match splitAtColon (trim lineTrimSet line) with
    | none => True
    | some cv => trim cvTrimSet cv.1 = [] ∨ stof (trim cvTrimSet cv.2) = none

/-- The entry a well-formed `CODE: VALUE` line contributes: the trimmed
code mapped to the parsed value; `none` for ignored lines (bad lines
contribute nothing either, but then the whole parse fails). -/
def entryOfLine (stof : List Char → Option ℚ) (line : List Char) :
    Option (List Char × ℚ) :=
  if IgnoredLine line then none
  else
    match splitAtColon (trim lineTrimSet line) with
    | none => none
    | some cv =>
      if trim cvTrimSet cv.1 = [] then none
      else (stof (trim cvTrimSet cv.2)).map fun q => (trim cvTrimSet cv.1, q)

/-! ### Claim C8 -/

/-- Unfolding of one step of the parser. -/
theorem parseObstacleCosts_cons (stof : List Char → Option ℚ)
    (line : List Char) (rest : List (List Char)) :
    parseObstacleCosts stof (line :: rest) =
      if IgnoredLine line then parseObstacleCosts stof rest
      else
        match splitAtColon (trim lineTrimSet line) with
        | none => none
        | some cv =>
          if trim cvTrimSet cv.1 = [] then none
          else
            match stof (trim cvTrimSet cv.2) with
            | none => none
            | some q =>
              (parseObstacleCosts stof rest).map fun es =>
                (trim cvTrimSet cv.1, q) :: es := rfl

/-- C8: obstacle-config parsing fails exactly when some non-ignored line
lacks a colon, has an empty symbol code, or has a value the float parser
rejects; and on success the result maps every remaining `CODE: VALUE`
line, with whitespace around the colon trimmed away, to its entry in
line order. -/
theorem parseObstacleCosts_spec (stof : List Char → Option ℚ)
    (lines : List (List Char)) :
    (parseObstacleCosts stof lines = none ↔ ∃ l ∈ lines, BadObstacleLine stof l) ∧
    ∀ es, parseObstacleCosts stof lines = some es →
      es = lines.filterMap (entryOfLine stof) := by
  induction lines with
  | nil =>
    constructor
    · simp [parseObstacleCosts]
    · intro es hes
      simp only [parseObstacleCosts, Option.some.injEq] at hes
      simp [← hes]
  | cons line rest ih =>
    obtain ⟨ih1, ih2⟩ := ih
    by_cases hig : IgnoredLine line
    · have hstep : parseObstacleCosts stof (line :: rest) = parseObstacleCosts stof rest := by
        rw [parseObstacleCosts_cons, if_pos hig]
      have hentry : entryOfLine stof line = none := by
        unfold entryOfLine
        rw [if_pos hig]
      constructor
      · rw [hstep, ih1]
        constructor
        · rintro ⟨l, hl, hbad⟩
          exact ⟨l, List.mem_cons_of_mem _ hl, hbad⟩
        · rintro ⟨l, hl, hbad⟩
          rcases List.mem_cons.mp hl with h | h
          · subst h; exact absurd hig hbad.1
          · exact ⟨l, h, hbad⟩
      · intro es hes
        rw [hstep] at hes
        rw [List.filterMap_cons, hentry]
        exact ih2 es hes
    · cases hsplit : splitAtColon (trim lineTrimSet line) with
      | none =>
        have hbad : BadObstacleLine stof line := ⟨hig, by rw [hsplit]; trivial⟩
        have hstep : parseObstacleCosts stof (line :: rest) = none := by
          rw [parseObstacleCosts_cons, if_neg hig]
          simp only [hsplit]
        constructor
        · rw [hstep]
          exact ⟨fun _ => ⟨line, List.mem_cons_self _ _, hbad⟩, fun _ => rfl⟩
        · intro es hes
          rw [hstep] at hes
          exact absurd hes (by simp)
      | some cv =>
        by_cases hcode : trim cvTrimSet cv.1 = []
        · have hbad : BadObstacleLine stof line := ⟨hig, by rw [hsplit]; exact Or.inl hcode⟩
          have hstep : parseObstacleCosts stof (line :: rest) = none := by
            rw [parseObstacleCosts_cons, if_neg hig]
            simp only [hsplit]
            rw [if_pos hcode]
          constructor
          · rw [hstep]
            exact ⟨fun _ => ⟨line, List.mem_cons_self _ _, hbad⟩, fun _ => rfl⟩
          · intro es hes
            rw [hstep] at hes
            exact absurd hes (by simp)
        · cases hstof : stof (trim cvTrimSet cv.2) with
          | none =>
            have hbad : BadObstacleLine stof line := ⟨hig, by rw [hsplit]; exact Or.inr hstof⟩
            have hstep : parseObstacleCosts stof (line :: rest) = none := by
              rw [parseObstacleCosts_cons, if_neg hig]
              simp only [hsplit]
              rw [if_neg hcode]
              simp only [hstof]
            constructor
            · rw [hstep]
              exact ⟨fun _ => ⟨line, List.mem_cons_self _ _, hbad⟩, fun _ => rfl⟩
            · intro es hes
              rw [hstep] at hes
              exact absurd hes (by simp)
          | some q =>
            have hnotbad : ¬ BadObstacleLine stof line := by
              rintro ⟨_, hb⟩
              rw [hsplit] at hb
              rcases hb with h | h
              · exact hcode h
              · rw [hstof] at h; cases h
            have hentry : entryOfLine stof line = some (trim cvTrimSet cv.1, q) := by
              unfold entryOfLine
              rw [if_neg hig]
              simp only [hsplit]
              rw [if_neg hcode]
              simp only [hstof, Option.map_some']
            have hstep : parseObstacleCosts stof (line :: rest) =
                (parseObstacleCosts stof rest).map
                  fun es => (trim cvTrimSet cv.1, q) :: es := by
              rw [parseObstacleCosts_cons, if_neg hig]
              simp only [hsplit]
              rw [if_neg hcode]
              simp only [hstof]
            constructor
            · rw [hstep]
              constructor
              · intro h
                have hnone : parseObstacleCosts stof rest = none := by
                  cases hh : parseObstacleCosts stof rest with
                  | none => rfl
                  | some es' => rw [hh] at h; simp at h
                obtain ⟨l, hl, hb⟩ := ih1.mp hnone
                exact ⟨l, List.mem_cons_of_mem _ hl, hb⟩
              · rintro ⟨l, hl, hb⟩
                rcases List.mem_cons.mp hl with h | h
                · subst h; exact absurd hb hnotbad
                · rw [ih1.mpr ⟨l, h, hb⟩]; rfl
            · intro es hes
              rw [hstep] at hes
              cases hh : parseObstacleCosts stof rest with
              | none => rw [hh] at hes; simp at hes
              | some es' =>
                rw [hh] at hes
                simp only [Option.map_some', Option.some.injEq] at hes
                rw [List.filterMap_cons, hentry, ← hes]
                rw [ih2 es' hh]

/-- C8 (witness): a comment line, a blank line and a well-formed line
`a:1` parse to the single entry `a ↦ 1`. -/
theorem parseObstacleCosts_spec_witness :
    [(['a'], (1 : ℚ))] =
      ([['#', 'a'], [], ['a', ':', '1']].filterMap
        (entryOfLine fun l => if l = ['1'] then some 1 else none)) :=
  (parseObstacleCosts_spec (fun l => if l = ['1'] then some 1 else none)
    [['#', 'a'], [], ['a', ':', '1']]).2 [(['a'], 1)] (by rfl)

end OMAP
